import Mathlib

/-!
Verification of the drag-drop task-board store (src/src/app.ts).

Shallow embedding of the TypeScript source. The file holds two versions of
the application; the second (refined) version carries the `ProjectStatus`
enum, the status-partitioned list views and the clear-and-rebuild renderer,
and is the one the claims cite. JavaScript value semantics are modelled as
follows: `string | number` values become `JSValue`; JS numbers become
`JSNum` (an integer or NaN); `Date.now()` becomes an explicit `now : Nat`
argument threaded to `addProject`; listener callbacks become the list of
snapshots broadcast by a mutation.
-/

namespace DragDrop

/-! ## JS strings and numbers -/

/-- The character for a decimal digit, as produced by JS `Number.toString()`. -/
def digitChar (d : Nat) : Char :=
  match d with
  | 0 => '0' | 1 => '1' | 2 => '2' | 3 => '3' | 4 => '4'
  | 5 => '5' | 6 => '6' | 7 => '7' | 8 => '8' | _ => '9'

/-- Fuel-driven accumulator loop producing the decimal digits of `n`
in most-significant-first order, prepended to `acc`. -/
def natDigitsAux : Nat → Nat → List Char → List Char
  | 0, _, acc => acc
  | fuel + 1, n, acc =>
    if n < 10 then digitChar n :: acc
    else natDigitsAux fuel (n / 10) (digitChar (n % 10) :: acc)

/-- Decimal digit list of `n` (`fuel = n + 1` always suffices). -/
def natDigits (n : Nat) : List Char := natDigitsAux (n + 1) n []

/-- JS `(n).toString()` for a non-negative integer. -/
def natToString (n : Nat) : String := ⟨natDigits n⟩

/-- JS `(n).toString()` for an integer. -/
def intToString : Int → String
  | Int.ofNat n => natToString n
  | Int.negSucc n => "-" ++ natToString (n + 1)

/-- A JS number: an integer value or NaN (the result of coercing a
non-numeric string with unary `+`). -/
inductive JSNum where
  | int (n : Int)
  | nan
deriving DecidableEq

/-- JS `toString` on a number (`NaN` prints as `"NaN"`). -/
def jsNumToString : JSNum → String
  | .int n => intToString n
  | .nan => "NaN"

/-- JS `>=` on a number against a bound; every comparison with NaN is false. -/
def jsGe : JSNum → Int → Bool
  | .int n, m => decide (m ≤ n)
  | .nan, _ => false

/-- JS `<=` on a number against a bound; every comparison with NaN is false. -/
def jsLe : JSNum → Int → Bool
  | .int n, m => decide (n ≤ m)
  | .nan, _ => false

/-- A `string | number` value, as in the `Validatable.value` field. -/
inductive JSValue where
  | str (s : String)
  | num (n : JSNum)
deriving DecidableEq

/-- JS `value.toString()` on a `string | number`. -/
def jsToString : JSValue → String
  | .str s => s
  | .num n => jsNumToString n

/-- ASCII whitespace recognised by JS `String.prototype.trim`. -/
def isJsWhitespace (c : Char) : Bool :=
  c.toNat == 32 || c.toNat == 9 || c.toNat == 10 ||
  c.toNat == 13 || c.toNat == 11 || c.toNat == 12

/-- Strip leading and trailing whitespace from a character list. -/
def trimList (l : List Char) : List Char :=
  ((l.dropWhile isJsWhitespace).reverse.dropWhile isJsWhitespace).reverse

/-- JS `s.trim()`. -/
def jsTrim (s : String) : String := ⟨trimList s.data⟩

/-! ## Validation (`interface Validatable` and the two `validate` functions)

The source file contains two textually identical copies of `validate`
(first version lines 72–101, second version lines 323–352); both are
transcribed so that their extensional equality can be stated. -/

/-- Interface `Validatable` from the source: a labelled value plus the
optional constraint set. -/
structure Validatable where
  value : JSValue
  required : Bool
  minLength : Option Int := none
  maxLength : Option Int := none
  min : Option Int := none
  max : Option Int := none

/-- Function `validate` from the first source version (lines 72–101): starts from
`true` and ANDs each applicable rule; length rules apply only to string
values, numeric bounds only to number values. -/
def validate1 (vi : Validatable) : Bool :=
  let isValid := true
  let isValid :=
    if vi.required then
      isValid && ((jsTrim (jsToString vi.value)).length != 0)
    else isValid
  let isValid :=
    match vi.minLength, vi.value with
    | some ml, .str s => isValid && decide (ml ≤ (s.length : Int))
    | _, _ => isValid
  let isValid :=
    match vi.maxLength, vi.value with
    | some ml, .str s => isValid && decide ((s.length : Int) ≤ ml)
    | _, _ => isValid
  let isValid :=
    match vi.min, vi.value with
    | some mn, .num n => isValid && jsGe n mn
    | _, _ => isValid
  let isValid :=
    match vi.max, vi.value with
    | some mx, .num n => isValid && jsLe n mx
    | _, _ => isValid
  isValid

/-- Function `validate` from the second source version (lines 323–352); the source
text is identical to that of the first version. -/
def validate2 (vi : Validatable) : Bool :=
  let isValid := true
  let isValid :=
    if vi.required then
      isValid && ((jsTrim (jsToString vi.value)).length != 0)
    else isValid
  let isValid :=
    match vi.minLength, vi.value with
    | some ml, .str s => isValid && decide (ml ≤ (s.length : Int))
    | _, _ => isValid
  let isValid :=
    match vi.maxLength, vi.value with
    | some ml, .str s => isValid && decide ((s.length : Int) ≤ ml)
    | _, _ => isValid
  let isValid :=
    match vi.min, vi.value with
    | some mn, .num n => isValid && jsGe n mn
    | _, _ => isValid
  let isValid :=
    match vi.max, vi.value with
    | some mx, .num n => isValid && jsLe n mx
    | _, _ => isValid
  isValid

/-! ## The project store (`enum ProjectStatus`, `class Project`,
`class ProjectState`, second source version lines 241–295)

A mutation returns the new store state together with the list of snapshot
broadcasts it performed (the source loops over `this.listeners` calling
each with `[...this.projects]`; one broadcast event = one element here). -/

/-- Enum `ProjectStatus` with members Active and Finished. -/
inductive ProjectStatus where
  | Active
  | Finished
deriving DecidableEq

/-- Class `Project`: id, title, description, people count and the status
(the only mutable field). -/
structure Project where
  id : String
  title : String
  description : String
  people : JSNum
  status : ProjectStatus
deriving DecidableEq

/-- Class `ProjectState`: the authoritative ordered collection (`this.projects`).
Listener callbacks are modelled by the snapshot lists mutations return. -/
structure ProjectState where
  projects : List Project
deriving DecidableEq

/-- Method `addProject(title, description, people)`: builds a `Project` with
`id = Date.now().toString()` (`now` is the clock reading at the call) and
`status = Active`, pushes it, then broadcasts one snapshot of the
collection to the listeners. -/
def addProject (s : ProjectState) (now : Nat) (title description : String)
    (people : JSNum) : ProjectState × List (List Project) :=
  let newProject : Project :=
    { id := natToString now, title := title, description := description,
      people := people, status := ProjectStatus.Active }
  let ps := s.projects ++ [newProject]
  (⟨ps⟩, [ps])

/-- Mutate, in place, the status of the first project carrying the given
id (JS object mutation through the reference `find` returned). -/
def updateFirst : List Project → String → ProjectStatus → List Project
  | [], _, _ => []
  | p :: ps, i, st =>
    if p.id == i then { p with status := st } :: ps
    else p :: updateFirst ps i st

/-- Modelled from the spec: `moveProject(id, newStatus)` is described in
spec §4.2 but absent from src/src/app.ts (the `ProjectState` class there
has only `addProject` and `addListener`). Per the spec it looks the
project up by id; if found and its current status differs from
`newStatus` it mutates the status in place and notifies subscribers,
otherwise it is a silent no-op with no notification. -/
def moveProject (s : ProjectState) (i : String) (st : ProjectStatus) :
    ProjectState × List (List Project) :=
  match s.projects.find? (fun q => q.id == i) with
  | none => (s, [])
  | some p =>
    if p.status = st then (s, [])
    else
      let ps := updateFirst s.projects i st
      (⟨ps⟩, [ps])

/-- One store operation of a run: an `addProject` call (with the clock
reading `Date.now()` returned at that call) or a `moveProject` call. -/
inductive Op where
  | add (now : Nat) (title description : String) (people : JSNum)
  | move (i : String) (st : ProjectStatus)
deriving DecidableEq

/-- Apply one operation to the store, discarding the notifications. -/
def applyOp (s : ProjectState) : Op → ProjectState
  | .add now t d p => (addProject s now t d p).1
  | .move i st => (moveProject s i st).1

/-- Run a sequence of store operations from a starting state. -/
def runOps (s : ProjectState) (ops : List Op) : ProjectState :=
  ops.foldl applyOp s

/-- The ids of the stored projects, in collection order. -/
def projectIds (s : ProjectState) : List String :=
  s.projects.map (fun p => p.id)

/-- The clock readings of the `add` operations of a run, in order. -/
def addTimes (ops : List Op) : List Nat :=
  ops.filterMap (fun op =>
    match op with
    | .add now _ _ _ => some now
    | .move _ _ => none)

/-! ## Reference-semantics refinement of the store (for aliasing analysis)

`[...this.projects]` copies the array but not the `Project` objects it
holds. To reason about that sharing, `RefStore` refines `ProjectState`
with an explicit heap: the store's array and every broadcast snapshot
hold references (heap indices); the records live in the heap. -/

/-- The store with JS reference semantics made explicit: `heap` holds the
`Project` records, `projects` is the store's array of references. -/
structure RefStore where
  heap : List Project
  projects : List Nat
deriving DecidableEq

/-- What an array of references displays: the records it points at. -/
def derefAll (heap : List Project) (refs : List Nat) : List Project :=
  refs.filterMap (fun r => heap.get? r)

/-- Method `addProject` in the reference model: allocate the record, push its
reference, broadcast `[...this.projects]` — a fresh array holding the
same references. -/
def addProjectRef (s : RefStore) (now : Nat) (title description : String)
    (people : JSNum) : RefStore × List (List Nat) :=
  let newProject : Project :=
    { id := natToString now, title := title, description := description,
      people := people, status := ProjectStatus.Active }
  let r := s.heap.length
  let heap2 := s.heap ++ [newProject]
  let refs2 := s.projects ++ [r]
  ({ heap := heap2, projects := refs2 }, [refs2])

/-- Mutating a `Project` record through a reference: overwrite the title
of the record at heap cell `r`. -/
def writeTitle : List Project → Nat → String → List Project
  | [], _, _ => []
  | p :: hs, 0, t => { p with title := t } :: hs
  | p :: hs, r + 1, t => p :: writeTitle hs r t

/-! ## List views (`class ProjectList`, second version lines 384–426) -/

/-- The constructor argument `type`, either active or finished. -/
inductive ListType where
  | active
  | finished
deriving DecidableEq

/-- The status a list view's partition selects. -/
def partStatus : ListType → ProjectStatus
  | .active => ProjectStatus.Active
  | .finished => ProjectStatus.Finished

/-- The filter the subscription callback applies
(the source ternary selects on `this.type`: the active view keeps Active
projects, the finished view keeps Finished projects). -/
def partFilter (ty : ListType) (projects : List Project) : List Project :=
  projects.filter (fun prj =>
    match ty with
    | .active => decide (prj.status = ProjectStatus.Active)
    | .finished => decide (prj.status = ProjectStatus.Finished))

/-- A list view's mutable state: the filtered snapshot
(`this.assignedProjects`) and the text contents of the `<li>` items
currently in its list element. -/
structure ListViewState where
  assignedProjects : List Project
  renderedItems : List String
deriving DecidableEq

/-- Method `renderProjects`: clear the list element by blanking its
inner HTML, then
then append one `<li>` per assigned project, holding its title. -/
def renderProjects (v : ListViewState) : ListViewState :=
  let cleared : ListViewState := { v with renderedItems := [] }
  { cleared with
    renderedItems :=
      v.assignedProjects.foldl
        (fun acc prj => acc ++ [prj.title]) cleared.renderedItems }

/-- The subscription callback registered in `configure`: filter the
snapshot by this view's partition, store it, re-render. -/
def listenerCallback (ty : ListType) (v : ListViewState)
    (projects : List Project) : ListViewState :=
  renderProjects { v with assignedProjects := partFilter ty projects }

/-! ## Item rendering (spec §4.4) -/

/-- Modelled from the spec: the ItemView people-count phrase of spec §4.4
is not present in src/src/app.ts (the `ProjectList.renderProjects` there
renders only each project's title); per the spec, exactly 1 renders the
singular phrase and any other non-negative count renders the plural. -/
def peoplePhrase (n : Nat) : String :=
  if n == 1 then "1 person" else natToString n ++ " persons"

/-! ## The input form (`class ProjectInput`, second version lines 429–499) -/

/-- The three input elements' current `value` strings. -/
structure FormState where
  titleValue : String
  descriptionValue : String
  peopleValue : String
deriving DecidableEq

/-- The form together with the store it submits into. -/
structure AppState where
  form : FormState
  store : ProjectState
deriving DecidableEq

/-- Parse an optional sign followed by decimal digits. -/
def parseIntChars : List Char → Option Int
  | [] => none
  | '-' :: cs =>
    match parseIntChars cs with
    | some (Int.ofNat n) => some (-(Int.ofNat n))
    | _ => none
  | cs =>
    if cs.all (fun c => c.isDigit) then
      some (Int.ofNat (cs.foldl (fun a c => a * 10 + (c.toNat - 48)) 0))
    else none

/-- JS unary `+` on an input string: a whitespace-only string coerces to
`0`, a numeric string to its value, anything else to NaN. -/
def plusCoerce (s : String) : JSNum :=
  let t := trimList s.data
  if t = [] then .int 0
  else
    match parseIntChars t with
    | some n => .int n
    | none => .nan

/-- The title argument `gatherUserInput` builds. -/
def titleValidatableOf (f : FormState) : Validatable :=
  { value := .str f.titleValue, required := true }

/-- The description argument `gatherUserInput` builds. -/
def describeValidatableOf (f : FormState) : Validatable :=
  { value := .str f.descriptionValue, required := true, minLength := some 5 }

/-- The people argument `gatherUserInput` builds
(`people = +this.peopleInputElement.value`). -/
def peopleValidatableOf (f : FormState) : Validatable :=
  { value := .num (plusCoerce f.peopleValue), required := true,
    min := some 1, max := some 5 }

/-- Return type of `gatherUserInput`: a tuple or nothing. -/
inductive GatherResult where
  | tuple (title description : String) (people : JSNum)
  | void
deriving DecidableEq

/-- Method `gatherUserInput`: validate the three fields; on any failure alert and
return nothing, otherwise return the tuple. -/
def gatherUserInput (f : FormState) : GatherResult :=
  let title := f.titleValue
  let description := f.descriptionValue
  let people := plusCoerce f.peopleValue
  if !validate2 (titleValidatableOf f) || !validate2 (describeValidatableOf f)
      || !validate2 (peopleValidatableOf f) then
    .void
  else
    .tuple title description people

/-- Method `clearInputs`: set all three input values to the empty string. -/
def clearInputs (_f : FormState) : FormState :=
  { titleValue := "", descriptionValue := "", peopleValue := "" }

/-- Method `submitHandler`: gather the input; if it is a tuple, add the project
and clear the fields. Returns the new app state, the snapshot broadcasts
performed, and the number of `alert` calls raised. -/
def submitHandler (a : AppState) (now : Nat) :
    AppState × List (List Project) × Nat :=
  match gatherUserInput a.form with
  | .void => (a, [], 1)
  | .tuple t d p =>
    let r := addProject a.store now t d p
    ({ form := clearInputs a.form, store := r.1 }, r.2, 0)

/-! ## Digit and trim lemmas -/

theorem digitChar_not_ws (d : Nat) : isJsWhitespace (digitChar d) = false := by
  unfold digitChar
  split <;> decide

theorem natDigitsAux_all_not_ws (fuel : Nat) : ∀ (n : Nat) (acc : List Char),
    (∀ c ∈ acc, isJsWhitespace c = false) →
    ∀ c ∈ natDigitsAux fuel n acc, isJsWhitespace c = false := by
  induction fuel with
  | zero => intro n acc hacc c hc; exact hacc c hc
  | succ f ih =>
    intro n acc hacc c hc
    simp only [natDigitsAux] at hc
    split at hc
    · rcases List.mem_cons.mp hc with h | h
      · exact h ▸ digitChar_not_ws n
      · exact hacc c h
    · refine ih (n / 10) _ ?_ c hc
      intro c2 hc2
      rcases List.mem_cons.mp hc2 with h | h
      · exact h ▸ digitChar_not_ws _
      · exact hacc c2 h

theorem natDigitsAux_ne_nil (fuel : Nat) : ∀ (n : Nat) (acc : List Char),
    natDigitsAux (fuel + 1) n acc ≠ [] := by
  induction fuel with
  | zero =>
    intro n acc
    simp only [natDigitsAux]
    split
    · exact List.cons_ne_nil _ _
    · exact List.cons_ne_nil _ _
  | succ f ih =>
    intro n acc
    simp only [natDigitsAux]
    split
    · exact List.cons_ne_nil _ _
    · exact ih _ _

theorem natDigits_all_not_ws (n : Nat) :
    ∀ c ∈ natDigits n, isJsWhitespace c = false :=
  natDigitsAux_all_not_ws (n + 1) n [] (by intro c hc; cases hc)

theorem natDigits_ne_nil (n : Nat) : natDigits n ≠ [] :=
  natDigitsAux_ne_nil n n []

theorem dropWhile_eq_self_of_not (p : Char → Bool) (l : List Char)
    (h : ∀ c ∈ l, p c = false) : l.dropWhile p = l := by
  cases l with
  | nil => rfl
  | cons a t => simp [List.dropWhile_cons, h a (List.mem_cons_self a t)]

theorem trimList_eq_self (l : List Char)
    (h : ∀ c ∈ l, isJsWhitespace c = false) : trimList l = l := by
  unfold trimList
  rw [dropWhile_eq_self_of_not _ _ h]
  rw [dropWhile_eq_self_of_not _ _ (fun c hc => h c (List.mem_reverse.mp hc))]
  exact List.reverse_reverse l

theorem required_ok_of_not_ws (l : List Char) (hne : l ≠ [])
    (h : ∀ c ∈ l, isJsWhitespace c = false) :
    ((jsTrim ⟨l⟩).length != 0) = true := by
  have ht : trimList l = l := trimList_eq_self l h
  have hlen : (jsTrim ⟨l⟩).length = l.length := by
    simp [jsTrim, String.length, ht]
  rw [hlen]
  simpa [bne_iff_ne] using fun h0 => hne (List.eq_nil_of_length_eq_zero h0)

theorem jsNum_required_ok (n : JSNum) :
    ((jsTrim (jsToString (.num n))).length != 0) = true := by
  cases n with
  | int v =>
    cases v with
    | ofNat m =>
      exact required_ok_of_not_ws (natDigits m) (natDigits_ne_nil m)
        (natDigits_all_not_ws m)
    | negSucc m =>
      have hshow : jsToString (.num (.int (Int.negSucc m)))
          = ⟨'-' :: natDigits (m + 1)⟩ := rfl
      rw [hshow]
      refine required_ok_of_not_ws _ (List.cons_ne_nil _ _) ?_
      intro c hc
      rcases List.mem_cons.mp hc with h | h
      · subst h; decide
      · exact natDigits_all_not_ws (m + 1) c h
  | nan => decide

/-! ## Claim theorems: the validator -/

/-- C10: the `validate` function of the first source version and the
`validate` function of the second source version are extensionally
equal — on every `Validatable` input they return the same boolean. -/
theorem validate_versions_equal : ∀ vi : Validatable, validate1 vi = validate2 vi :=
  fun _ => rfl

/-- C8: for every numeric value `v` and bounds `m`, `M`, the call
`validate({value: v, required: true, min: m, max: M})` returns true
if and only if `m ≤ v ≤ M`. -/
theorem validate_numeric_bounds (v m M : Int) :
    validate2 { value := .num (.int v), required := true,
                min := some m, max := some M } = true ↔ (m ≤ v ∧ v ≤ M) := by
  have hreq := jsNum_required_ok (.int v)
  simp [validate2, hreq, jsGe, jsLe, and_assoc]

/-- C9: the required rule of `validate` passes for every numeric value
(the trimmed decimal string form of a JS number is never empty, zero and
NaN included); an empty people field is coerced by unary plus to the
number 0, which the required rule accepts and only the `min 1` bound
rejects (the `max 5` bound also accepts it), so the full people
validation fails on an empty field solely because of `min`. -/
theorem numeric_required_always_passes :
    (∀ n : JSNum, ((jsTrim (jsToString (.num n))).length != 0) = true) ∧
    plusCoerce "" = .int 0 ∧
    validate2 { value := .num (.int 0), required := true,
                min := some 1, max := some 5 } = false ∧
    validate2 { value := .num (.int 0), required := true } = true ∧
    jsGe (.int 0) 1 = false ∧
    jsLe (.int 0) 5 = true := by
  refine ⟨jsNum_required_ok, ?_, ?_, ?_, ?_, ?_⟩ <;> decide

/-! ## Claim theorems: the store's add operation -/

/-- C2: for every store state and all arguments, `addProject` appends
exactly one new project at the end of the ordered collection with
status Active, leaves every existing entry and their relative order
unchanged (the old collection is a prefix of the new one), increases the
length by exactly 1, and broadcasts exactly one snapshot of the new
collection to the subscribers. -/
theorem addProject_appends (s : ProjectState) (now : Nat) (t d : String)
    (p : JSNum) :
    (addProject s now t d p).1.projects
        = s.projects ++ [{ id := natToString now, title := t, description := d,
                           people := p, status := ProjectStatus.Active }] ∧
    (addProject s now t d p).1.projects.take s.projects.length = s.projects ∧
    (addProject s now t d p).1.projects.length = s.projects.length + 1 ∧
    (addProject s now t d p).2 = [(addProject s now t d p).1.projects] := by
  refine ⟨rfl, ?_, ?_, rfl⟩
  · exact List.take_left s.projects _
  · simp [addProject]

/-! ## Claim theorems: the list views -/

theorem foldl_append_titles (l : List Project) (acc : List String) :
    l.foldl (fun a prj => a ++ [prj.title]) acc
      = acc ++ l.map (fun p => p.title) := by
  induction l generalizing acc with
  | nil => simp
  | cons p t ih => simp [List.foldl_cons, ih]

/-- C5: for every list view partition and every snapshot it receives, the
subscription callback keeps exactly those projects whose status equals
the partition, and the subsequent render is a clear-and-rebuild: the
rendered item list contains exactly one item (the title) per matching
project of the filtered snapshot, independent of whatever items previous
renders had left in the view. -/
theorem listView_filter_render (ty : ListType) (v : ListViewState)
    (snapshot : List Project) :
    (listenerCallback ty v snapshot).assignedProjects = partFilter ty snapshot ∧
    (listenerCallback ty v snapshot).renderedItems
        = (partFilter ty snapshot).map (fun p => p.title) ∧
    (∀ p : Project,
        p ∈ partFilter ty snapshot ↔ p ∈ snapshot ∧ p.status = partStatus ty) := by
  refine ⟨rfl, ?_, ?_⟩
  · simp [listenerCallback, renderProjects, foldl_append_titles]
  · intro p
    cases ty <;> simp [partFilter, partStatus, List.mem_filter]

/-! ## Claim theorems: the people-count phrase -/

/-- C6: the people-count phrase is singular exactly when the count is 1
(rendering "1 person") and plural for every other non-negative integer
n (rendering the decimal form of n followed by " persons"). -/
theorem peoplePhrase_correct (n : Nat) :
    (peoplePhrase n = "1 person" ↔ n = 1) ∧
    (n ≠ 1 → peoplePhrase n = natToString n ++ " persons") := by
  have hplural : n ≠ 1 → peoplePhrase n = natToString n ++ " persons" := by
    intro h
    simp [peoplePhrase, h]
  refine ⟨⟨?_, ?_⟩, hplural⟩
  · intro h
    by_contra hne
    rw [hplural hne] at h
    have hlen := congrArg String.length h
    rw [String.length_append] at hlen
    have h1 : 1 ≤ (natToString n).length := by
      have : natDigits n ≠ [] := natDigits_ne_nil n
      have : (natDigits n).length ≠ 0 := fun h0 => this (List.eq_nil_of_length_eq_zero h0)
      simpa [natToString, String.length] using Nat.one_le_iff_ne_zero.mpr this
    have h2 : (" persons" : String).length = 8 := by decide
    have h3 : ("1 person" : String).length = 8 := by decide
    omega
  · intro h
    subst h
    rfl

/-- C6 witness: at the concrete counts 0 and 1 the plural branch of the
theorem applies to 0 (whose hypothesis 0 ≠ 1 is discharged by decide)
and yields the phrase "0 persons", while count 1 yields "1 person". -/
theorem peoplePhrase_correct_witness :
    peoplePhrase 0 = "0 persons" ∧ peoplePhrase 1 = "1 person" := by
  constructor
  · have h := (peoplePhrase_correct 0).2 (by decide)
    rw [h]
    decide
  · exact (peoplePhrase_correct 1).1.mpr rfl

/-! ## Lookup and update lemmas for `moveProject` -/

theorem find?_decomp (ps : List Project) (i : String) (p : Project)
    (h : ps.find? (fun q => q.id == i) = some p) :
    ∃ l r, ps = l ++ p :: r ∧ (∀ q ∈ l, (q.id == i) = false) ∧
      (p.id == i) = true := by
  induction ps with
  | nil => simp [List.find?] at h
  | cons a t ih =>
    by_cases ha : (a.id == i) = true
    · have hpos : (fun q => q.id == i) a = true := ha
      rw [@List.find?_cons_of_pos _ (fun q => q.id == i) a t hpos] at h
      injection h with h2
      subst h2
      refine ⟨[], t, rfl, ?_, ha⟩
      intro q hq
      cases hq
    · have hneg : ¬ (fun q => q.id == i) a = true := ha
      rw [@List.find?_cons_of_neg _ (fun q => q.id == i) a t hneg] at h
      obtain ⟨l, r, heq, hl, hp⟩ := ih h
      refine ⟨a :: l, r, by rw [heq]; rfl, ?_, hp⟩
      intro q hq
      rcases List.mem_cons.mp hq with hq | hq
      · exact hq ▸ (Bool.not_eq_true _).mp ha
      · exact hl q hq

theorem updateFirst_of_decomp (l r : List Project) (i : String)
    (st : ProjectStatus) (p : Project)
    (hl : ∀ q ∈ l, (q.id == i) = false) (hp : (p.id == i) = true) :
    updateFirst (l ++ p :: r) i st = l ++ { p with status := st } :: r := by
  induction l with
  | nil =>
    show (if (p.id == i) = true then { p with status := st } :: r
          else p :: updateFirst r i st) = { p with status := st } :: r
    rw [if_pos hp]
  | cons a t ih =>
    have ha := hl a (List.mem_cons_self a t)
    have hcond : ¬ ((a.id == i) = true) := by simp [ha]
    have hrec := ih (fun q hq => hl q (List.mem_cons_of_mem a hq))
    calc updateFirst ((a :: t) ++ p :: r) i st
        = if (a.id == i) = true then { a with status := st } :: (t ++ p :: r)
          else a :: updateFirst (t ++ p :: r) i st := rfl
      _ = a :: updateFirst (t ++ p :: r) i st := if_neg hcond
      _ = a :: (t ++ { p with status := st } :: r) := by rw [hrec]
      _ = (a :: t) ++ { p with status := st } :: r := rfl

theorem find?_append_of_fail (l r : List Project) (i : String) (p : Project)
    (hl : ∀ q ∈ l, (q.id == i) = false) (hp : (p.id == i) = true) :
    (l ++ p :: r).find? (fun q => q.id == i) = some p := by
  induction l with
  | nil =>
    have hpos : (fun q => q.id == i) p = true := hp
    exact @List.find?_cons_of_pos _ (fun q => q.id == i) p r hpos
  | cons a t ih =>
    have ha := hl a (List.mem_cons_self a t)
    have hneg : ¬ (fun q => q.id == i) a = true := by simp [ha]
    rw [List.cons_append,
      @List.find?_cons_of_neg _ (fun q => q.id == i) a (t ++ p :: r) hneg]
    exact ih (fun q hq => hl q (List.mem_cons_of_mem a hq))

/-! ## Claim theorems: the move operation -/

/-- C1: `moveProject(id, newStatus)` mutates the status of the looked-up
project and broadcasts exactly one snapshot precisely when a project
with that id exists and its status differs from `newStatus`; when no
project matches, or the status already equals `newStatus`, the store is
left unchanged and no notification is emitted; consequently an immediate
second call with the same arguments never notifies. -/
theorem moveProject_correct (s : ProjectState) (i : String)
    (st : ProjectStatus) :
    (s.projects.find? (fun q => q.id == i) = none →
        moveProject s i st = (s, [])) ∧
    (∀ p, s.projects.find? (fun q => q.id == i) = some p → p.status = st →
        moveProject s i st = (s, [])) ∧
    (∀ p, s.projects.find? (fun q => q.id == i) = some p → p.status ≠ st →
        (moveProject s i st).2 = [(moveProject s i st).1.projects] ∧
        ∃ l r, s.projects = l ++ p :: r ∧ (∀ q ∈ l, (q.id == i) = false) ∧
          (moveProject s i st).1.projects
            = l ++ { p with status := st } :: r) ∧
    (moveProject (moveProject s i st).1 i st).2 = [] := by
  refine ⟨?_, ?_, ?_, ?_⟩
  · intro h
    unfold moveProject
    rw [h]
  · intro p hp hst
    unfold moveProject
    rw [hp]
    simp [hst]
  · intro p hp hst
    obtain ⟨l, r, heq, hl, hpid⟩ := find?_decomp _ _ _ hp
    have hupd : updateFirst s.projects i st
        = l ++ { p with status := st } :: r := by
      rw [heq]
      exact updateFirst_of_decomp l r i st p hl hpid
    have hmove : moveProject s i st
        = (⟨updateFirst s.projects i st⟩, [updateFirst s.projects i st]) := by
      unfold moveProject
      rw [hp]
      simp [hst]
    refine ⟨by rw [hmove], l, r, heq, hl, ?_⟩
    rw [hmove, hupd]
  · rcases hfind : s.projects.find? (fun q => q.id == i) with _ | p
    · have h1 : moveProject s i st = (s, []) := by
        unfold moveProject
        rw [hfind]
      rw [h1]
      show (moveProject s i st).2 = []
      rw [h1]
    · by_cases hst : p.status = st
      · have h1 : moveProject s i st = (s, []) := by
          unfold moveProject
          rw [hfind]
          simp [hst]
        rw [h1]
        show (moveProject s i st).2 = []
        rw [h1]
      · obtain ⟨l, r, heq, hl, hpid⟩ := find?_decomp _ _ _ hfind
        have hupd : updateFirst s.projects i st
            = l ++ { p with status := st } :: r := by
          rw [heq]
          exact updateFirst_of_decomp l r i st p hl hpid
        have hmove : moveProject s i st
            = (⟨updateFirst s.projects i st⟩, [updateFirst s.projects i st]) := by
          unfold moveProject
          rw [hfind]
          simp [hst]
        have hfind2 : (updateFirst s.projects i st).find? (fun q => q.id == i)
            = some { p with status := st } := by
          rw [hupd]
          exact find?_append_of_fail l r i { p with status := st } hl hpid
        rw [hmove]
        show (moveProject ⟨updateFirst s.projects i st⟩ i st).2 = []
        unfold moveProject
        rw [show (⟨updateFirst s.projects i st⟩ : ProjectState).projects
              = updateFirst s.projects i st from rfl, hfind2]
        simp

/-- A one-project store used to witness the move operation. -/
def sampleProject : Project :=
  { id := "5", title := "t", description := "d", people := .int 2,
    status := .Active }

/-- The witness store holding only `sampleProject`. -/
def sampleStore : ProjectState := ⟨[sampleProject]⟩

/-- C1 witness: on a store holding one Active project with id "5", moving
it to Finished broadcasts exactly one snapshot with the status flipped;
the repeated call with the same arguments broadcasts nothing; and moving
the nonexistent id "9" leaves the store unchanged with no broadcast. -/
theorem moveProject_correct_witness :
    (moveProject sampleStore "5" .Finished).2
      = [[{ sampleProject with status := .Finished }]] ∧
    (moveProject (moveProject sampleStore "5" .Finished).1 "5" .Finished).2
      = [] ∧
    moveProject sampleStore "9" .Finished = (sampleStore, []) := by
  refine ⟨?_, ?_, ?_⟩
  · have h := ((moveProject_correct sampleStore "5" .Finished).2.2.1
      sampleProject (by decide) (by decide)).1
    rw [h]
    decide
  · exact (moveProject_correct sampleStore "5" .Finished).2.2.2
  · exact (moveProject_correct sampleStore "9" .Finished).1 (by decide)

/-! ## Injectivity of the generated ids -/

theorem natDigitsAux_eq (n : Nat) : ∀ (fuel : Nat) (acc : List Char),
    n < fuel → natDigitsAux fuel n acc = natDigits n ++ acc := by
  induction n using Nat.strong_induction_on with
  | _ n ih =>
    intro fuel acc hfuel
    match fuel with
    | f + 1 =>
      by_cases h10 : n < 10
      · simp [natDigitsAux, natDigits, h10]
      · have hdiv : n / 10 < n := Nat.div_lt_self (by omega) (by omega)
        have h1 : natDigitsAux (f + 1) n acc
            = natDigitsAux f (n / 10) (digitChar (n % 10) :: acc) := by
          simp [natDigitsAux, h10]
        have h2 : natDigits n
            = natDigits (n / 10) ++ [digitChar (n % 10)] := by
          unfold natDigits
          have h3 : natDigitsAux (n + 1) n []
              = natDigitsAux n (n / 10) (digitChar (n % 10) :: []) := by
            simp [natDigitsAux, h10]
          rw [h3]
          exact ih (n / 10) hdiv n _ (by omega)
        rw [h1, ih (n / 10) hdiv f _ (by omega), h2]
        simp
    | 0 => omega

theorem natDigits_step (n : Nat) (h10 : ¬ n < 10) :
    natDigits n = natDigits (n / 10) ++ [digitChar (n % 10)] := by
  have hdiv : n / 10 < n := Nat.div_lt_self (by omega) (by omega)
  unfold natDigits
  have h3 : natDigitsAux (n + 1) n []
      = natDigitsAux n (n / 10) (digitChar (n % 10) :: []) := by
    simp [natDigitsAux, h10]
  rw [h3]
  exact natDigitsAux_eq (n / 10) n _ (by omega)

/-- Parse a digit list back to the number it denotes. -/
def digitsVal (l : List Char) : Nat :=
  l.foldl (fun a c => a * 10 + (c.toNat - 48)) 0

theorem digitVal_digitChar (m : Nat) (h : m < 10) :
    (digitChar m).toNat - 48 = m := by
  interval_cases m <;> rfl

theorem digitsVal_natDigits (n : Nat) : digitsVal (natDigits n) = n := by
  induction n using Nat.strong_induction_on with
  | _ n ih =>
    by_cases h10 : n < 10
    · have h1 : natDigits n = [digitChar n] := by
        simp [natDigits, natDigitsAux, h10]
      rw [h1]
      simpa [digitsVal] using digitVal_digitChar n h10
    · have hdiv : n / 10 < n := Nat.div_lt_self (by omega) (by omega)
      rw [natDigits_step n h10]
      have hih := ih (n / 10) hdiv
      simp only [digitsVal, List.foldl_append, List.foldl_cons, List.foldl_nil]
      simp only [digitsVal] at hih
      rw [hih, digitVal_digitChar _ (Nat.mod_lt n (by omega))]
      omega

theorem natToString_injective : Function.Injective natToString := by
  intro a b h
  have hd : natDigits a = natDigits b := congrArg String.data h
  have ha := digitsVal_natDigits a
  have hb := digitsVal_natDigits b
  rw [← ha, ← hb, hd]

/-! ## Ids along a run of store operations -/

theorem updateFirst_ids (ps : List Project) (i : String) (st : ProjectStatus) :
    (updateFirst ps i st).map (fun p => p.id) = ps.map (fun p => p.id) := by
  induction ps with
  | nil => rfl
  | cons a t ih =>
    show (if (a.id == i) = true then { a with status := st } :: t
          else a :: updateFirst t i st).map (fun p => p.id) = _
    by_cases ha : (a.id == i) = true
    · rw [if_pos ha]
      rfl
    · rw [if_neg ha]
      simpa using ih

theorem projectIds_moveProject (s : ProjectState) (i : String)
    (st : ProjectStatus) :
    projectIds (moveProject s i st).1 = projectIds s := by
  unfold moveProject
  split
  · rfl
  · split
    · rfl
    · exact updateFirst_ids s.projects i st

theorem projectIds_runOps (ops : List Op) : ∀ s : ProjectState,
    projectIds (runOps s ops)
      = projectIds s ++ (addTimes ops).map natToString := by
  induction ops with
  | nil => intro s; simp [runOps, addTimes, projectIds]
  | cons op t ih =>
    intro s
    have hstep : runOps s (op :: t) = runOps (applyOp s op) t := rfl
    rw [hstep, ih]
    cases op with
    | add now ti d p =>
      simp [applyOp, addProject, projectIds, addTimes]
    | move i st =>
      rw [show applyOp s (.move i st) = (moveProject s i st).1 from rfl]
      rw [projectIds_moveProject]
      simp [addTimes]

/-! ## Claim theorems: id uniqueness -/

/-- C3 counterexample: two `addProject` calls that observe the same clock
reading `Date.now() = 0` produce two projects with the identical id "0",
so the reachable store violates pairwise-distinct ids. -/
theorem ids_nodup_counterexample :
    ¬ (projectIds (runOps ⟨[]⟩
        [.add 0 "a" "x" (.int 1), .add 0 "b" "y" (.int 1)])).Nodup := by
  decide

/-- C3 (amended): in every store state reachable by a sequence of
addProject and moveProject operations in which the clock readings of the
addProject calls are pairwise distinct, the ids of all projects are
pairwise distinct. -/
theorem ids_nodup_of_distinct_times (ops : List Op)
    (h : (addTimes ops).Nodup) :
    (projectIds (runOps ⟨[]⟩ ops)).Nodup := by
  rw [projectIds_runOps ops ⟨[]⟩]
  have hnil : projectIds ⟨[]⟩ = [] := rfl
  rw [hnil, List.nil_append]
  exact h.map natToString_injective

/-- C3 witness: a run of two adds at the distinct clock readings 1 and 2
with a move between them reaches a store whose ids are pairwise
distinct. -/
theorem ids_nodup_of_distinct_times_witness :
    (addTimes [Op.add 1 "a" "x" (.int 1), Op.move "1" .Finished,
        Op.add 2 "b" "y" (.int 2)]).Nodup ∧
    (projectIds (runOps ⟨[]⟩ [Op.add 1 "a" "x" (.int 1),
        Op.move "1" .Finished, Op.add 2 "b" "y" (.int 2)])).Nodup :=
  ⟨by decide, ids_nodup_of_distinct_times _ (by decide)⟩

/-! ## Claim theorems: snapshot sharing -/

/-- The reference-model store after one `addProject` on an empty store. -/
def c4Store : RefStore :=
  (addProjectRef ⟨[], []⟩ 7 "A" "about" (.int 2)).1

/-- The snapshot the subscriber received from that mutation. -/
def c4Snapshot : List Nat :=
  ((addProjectRef ⟨[], []⟩ 7 "A" "about" (.int 2)).2).headD []

/-- The heap after the subscriber mutates, through its snapshot, the
title of the project record the snapshot holds. -/
def c4MutatedHeap : List Project :=
  writeTitle c4Store.heap (c4Snapshot.headD 0) "B"

/-- C4 counterexample: the snapshot delivered by `addProject` is the
spread `[...this.projects]`, a shallow copy sharing the project records;
mutating a project record reached through the subscriber snapshot
changes what the store internal collection contains, so the snapshot is
not an independent copy. -/
theorem snapshot_shallow_counterexample :
    derefAll c4MutatedHeap c4Store.projects
      ≠ derefAll c4Store.heap c4Store.projects := by
  decide

/-- C4 (amended): every notifying mutation broadcasts exactly one fresh
snapshot array equal to the store array of references (so array-level
changes to a subscriber copy cannot reach the store), but the project
records are shared: under any later heap mutation the snapshot and the
store array keep dereferencing to the same records, and the store array
of references itself is never changed by such record mutations. -/
theorem snapshot_shallow_copy (s : RefStore) (now : Nat) (t d : String)
    (p : JSNum) :
    (addProjectRef s now t d p).2 = [(addProjectRef s now t d p).1.projects] ∧
    (∀ heap2 : List Project,
        derefAll heap2 (((addProjectRef s now t d p).2).headD [])
          = derefAll heap2 (addProjectRef s now t d p).1.projects) ∧
    (∀ (r : Nat) (t2 : String),
        (⟨writeTitle (addProjectRef s now t d p).1.heap r t2,
          (addProjectRef s now t d p).1.projects⟩ : RefStore).projects
          = (addProjectRef s now t d p).1.projects) := by
  exact ⟨rfl, fun _ => rfl, fun _ _ => rfl⟩

/-! ## Claim theorems: form submission -/

/-- C7: a submission in which at least one of the three fields fails its
validation is rejected: one alert is raised, the app state (store
collection and all three input fields) is left unchanged and no
notification is broadcast; a submission in which all three fields
validate appends exactly the gathered project, broadcasts one snapshot,
raises no alert and clears the three fields. -/
theorem submitHandler_correct (a : AppState) (now : Nat) :
    ((validate2 (titleValidatableOf a.form) = false ∨
      validate2 (describeValidatableOf a.form) = false ∨
      validate2 (peopleValidatableOf a.form) = false) →
        submitHandler a now = (a, [], 1)) ∧
    (validate2 (titleValidatableOf a.form) = true →
     validate2 (describeValidatableOf a.form) = true →
     validate2 (peopleValidatableOf a.form) = true →
        (submitHandler a now).1.store.projects
          = a.store.projects
            ++ [{ id := natToString now, title := a.form.titleValue,
                  description := a.form.descriptionValue,
                  people := plusCoerce a.form.peopleValue,
                  status := ProjectStatus.Active }] ∧
        (submitHandler a now).1.form
          = { titleValue := "", descriptionValue := "", peopleValue := "" } ∧
        (submitHandler a now).2.1
          = [(submitHandler a now).1.store.projects] ∧
        (submitHandler a now).2.2 = 0) := by
  constructor
  · intro h
    have hguard : (!validate2 (titleValidatableOf a.form)
        || !validate2 (describeValidatableOf a.form)
        || !validate2 (peopleValidatableOf a.form)) = true := by
      rcases h with h | h | h <;> simp [h]
    have hgather : gatherUserInput a.form = .void := by
      unfold gatherUserInput
      rw [if_pos]
      exact hguard
    unfold submitHandler
    rw [hgather]
  · intro h1 h2 h3
    have hguard : (!validate2 (titleValidatableOf a.form)
        || !validate2 (describeValidatableOf a.form)
        || !validate2 (peopleValidatableOf a.form)) = false := by
      simp [h1, h2, h3]
    have hgather : gatherUserInput a.form
        = .tuple a.form.titleValue a.form.descriptionValue
            (plusCoerce a.form.peopleValue) := by
      unfold gatherUserInput
      rw [if_neg]
      simp [hguard]
    have hsubmit : submitHandler a now
        = ({ form := clearInputs a.form,
             store := (addProject a.store now a.form.titleValue
               a.form.descriptionValue (plusCoerce a.form.peopleValue)).1 },
           (addProject a.store now a.form.titleValue
               a.form.descriptionValue (plusCoerce a.form.peopleValue)).2,
           0) := by
      unfold submitHandler
      rw [hgather]
    rw [hsubmit]
    exact ⟨rfl, rfl, rfl, rfl⟩

/-- C7 witness: with an empty store, submitting the blank form (title
fails the required rule) changes nothing, broadcasts nothing and raises
one alert; submitting title "T", description "longdesc" and people "3"
appends the corresponding Active project, broadcasts one snapshot,
raises no alert and clears the fields. -/
theorem submitHandler_correct_witness :
    submitHandler ⟨⟨"", "", ""⟩, ⟨[]⟩⟩ 5 = (⟨⟨"", "", ""⟩, ⟨[]⟩⟩, [], 1) ∧
    (submitHandler ⟨⟨"T", "longdesc", "3"⟩, ⟨[]⟩⟩ 5).1.store.projects
      = [{ id := "5", title := "T", description := "longdesc",
           people := .int 3, status := ProjectStatus.Active }] ∧
    (submitHandler ⟨⟨"T", "longdesc", "3"⟩, ⟨[]⟩⟩ 5).1.form = ⟨"", "", ""⟩ ∧
    (submitHandler ⟨⟨"T", "longdesc", "3"⟩, ⟨[]⟩⟩ 5).2.2 = 0 := by
  refine ⟨?_, ?_, ?_, ?_⟩
  · exact (submitHandler_correct ⟨⟨"", "", ""⟩, ⟨[]⟩⟩ 5).1
      (Or.inl (by decide))
  · have h := ((submitHandler_correct ⟨⟨"T", "longdesc", "3"⟩, ⟨[]⟩⟩ 5).2
      (by decide) (by decide) (by decide)).1
    rw [h]
    decide
  · exact ((submitHandler_correct ⟨⟨"T", "longdesc", "3"⟩, ⟨[]⟩⟩ 5).2
      (by decide) (by decide) (by decide)).2.1
  · exact ((submitHandler_correct ⟨⟨"T", "longdesc", "3"⟩, ⟨[]⟩⟩ 5).2
      (by decide) (by decide) (by decide)).2.2.2

end DragDrop
